import Mathlib

/-!
Shallow embedding of the dysentery-dashboard data pipeline (`src/app.py`):
loading/cleaning raw records, filtering, the four aggregate views, and the
six-point linear-regression forecast.  Pandas/sklearn behaviour is modelled
as follows: nullable cells are `Option`, numeric cells are `ℚ`, timestamps
are calendar dates (year, month, day), and the `ValueError` raised by
`LinearRegression.fit` on an empty sample is `Option.none`.
-/

namespace Dashboard

/-- One raw CSV row: `refArea` (resource-URL string), `refPeriod`
(string with an embedded `MM-YYYY`), nullable `Number of cases`. -/
structure RawRecord where
  refArea : String
  refPeriod : String
  numCases : Option ℚ
deriving DecidableEq, Repr

/-- A calendar date as pandas `Timestamp` (year, month, day). -/
structure Date where
  year : ℕ
  month : ℕ
  day : ℕ
deriving DecidableEq, Repr

/-- A row of the cleaned table: the five retained columns of `load_data`. -/
structure CleanRecord where
  date : Date
  year : String
  month : String
  governorate : String
  numCases : ℚ
deriving DecidableEq, Repr

/-! ## String extraction (the three regexes of `load_data`) -/

/-- Core of `refArea.str.extract(r'/resource/([^/]+)$')`: the pattern matches
iff the string ends in `/resource/seg` with `seg` nonempty and slash-free,
i.e. (reading the characters from the end) a nonempty slash-free run preceded
by the ten characters `/resource/`. -/
def extractResource (cs : List Char) : Option (List Char) :=
  let rev := cs.reverse
  let seg := rev.takeWhile (fun c => c ≠ '/')
  let rest := rev.dropWhile (fun c => c ≠ '/')
  if seg ≠ [] ∧ rest.take 10 = ("/resource/".data).reverse then
    some seg.reverse
  else
    none

/-- `.str.replace('_', ' ')` on the extracted group (literal replacement). -/
def underscoreToSpace (cs : List Char) : List Char :=
  cs.map (fun c => if c = '_' then ' ' else c)

/-- `df["refArea"].str.extract(r'/resource/([^/]+)$')[0].str.replace('_',' ')`. -/
def extractGov (s : String) : Option String :=
  (extractResource s.data).map (fun g => String.mk (underscoreToSpace g))

/-- `refPeriod.str.extract(r'(\d{4})')`: the leftmost run of four digits. -/
def findYear4 : List Char → Option String
  | [] => none
  | a :: rest =>
    match rest with
    | b :: c :: d :: _ =>
      if a.isDigit ∧ b.isDigit ∧ c.isDigit ∧ d.isDigit then
        some (String.mk [a, b, c, d])
      else
        findYear4 rest
    | _ => none

/-- `refPeriod.str.extract(r'(\d{2})-\d{4}')[0]`: the two digits of the
leftmost occurrence of `digit digit '-' digit digit digit digit`. -/
def findMonth2 : List Char → Option String
  | [] => none
  | a :: rest =>
    match rest with
    | b :: c :: d :: e :: f :: g :: _ =>
      if a.isDigit ∧ b.isDigit ∧ c = '-' ∧ d.isDigit ∧ e.isDigit ∧ f.isDigit ∧ g.isDigit then
        some (String.mk [a, b])
      else
        findMonth2 rest
    | _ => none

/-- Decimal value of a nonempty all-digit character string. -/
def parseNat (cs : List Char) : Option ℕ :=
  if cs ≠ [] ∧ cs.all Char.isDigit then
    some (cs.foldl (fun acc c => acc * 10 + (c.toNat - '0'.toNat)) 0)
  else
    none

/-- The month starts representable as pandas `datetime64[ns]` timestamps:
`Timestamp.min` is 1677-09-21 and `Timestamp.max` is 2262-04-11, so the
first day of month `m` of year `y` is representable iff the pair lies
between 1677-10 and 2262-04 inclusive. -/
def inTimestampBounds (y m : ℕ) : Prop :=
  (1678 ≤ y ∧ y ≤ 2261) ∨ (y = 1677 ∧ 10 ≤ m) ∨ (y = 2262 ∧ m ≤ 4)

instance (y m : ℕ) : Decidable (inTimestampBounds y m) := by
  unfold inTimestampBounds
  infer_instance

/-- `pd.to_datetime(Year + "-" + Month, errors='coerce')`: parses the two
numeric strings and yields the first day of that calendar month, or `none`
(NaT) when the month is not a real month (01–12) or the resulting date falls
outside the `datetime64[ns]` timestamp range (`OutOfBoundsDatetime` is also
coerced to NaT). -/
def to_datetime (ys ms : String) : Option Date :=
  match parseNat ys.data, parseNat ms.data with
  | some y, some m =>
    if 1 ≤ m ∧ m ≤ 12 ∧ inTimestampBounds y m then some ⟨y, m, 1⟩ else none
  | _, _ => none

/-- Per-row derivation of `load_data`: the row survives the final `dropna`
iff `Number of cases` is non-null and all three derived columns plus the
parsed `Date` are non-null. -/
def cleanRow (r : RawRecord) : Option CleanRecord :=
  match r.numCases with
  | none => none
  | some n =>
    match extractGov r.refArea, findYear4 r.refPeriod.data, findMonth2 r.refPeriod.data with
    | some g, some ys, some ms =>
      match to_datetime ys ms with
      | some d => some ⟨d, ys, ms, g, n⟩
      | none => none
    | _, _, _ => none

/-- `load_data` (lines 14–21): filter non-null `Number of cases`, derive
`Governorate`/`Year`/`Month`/`Date`, keep the five columns, `dropna()`. -/
def load_data (raws : List RawRecord) : List CleanRecord :=
  (raws.filter (fun r => r.numCases.isSome)).filterMap cleanRow

/-! ## Filter stage (line 33) -/

/-- `df[df["Year"].isin(selected_years) & df["Governorate"].isin(selected_govs)]`. -/
def filterData (rows : List CleanRecord) (years govs : List String) : List CleanRecord :=
  rows.filter (fun r => decide (r.year ∈ years ∧ r.governorate ∈ govs))

/-! ## Date ordering, ordinals and month arithmetic -/

/-- Chronological (lexicographic) comparison of timestamps. -/
def dateLe (d d' : Date) : Prop :=
  d.year < d'.year ∨
    (d.year = d'.year ∧ (d.month < d'.month ∨ (d.month = d'.month ∧ d.day ≤ d'.day)))

/-- Strict chronological comparison of timestamps. -/
def dateLt (d d' : Date) : Prop :=
  d.year < d'.year ∨
    (d.year = d'.year ∧ (d.month < d'.month ∨ (d.month = d'.month ∧ d.day < d'.day)))

instance : DecidableRel dateLe := fun d d' => by unfold dateLe; infer_instance

instance : DecidableRel dateLt := fun d d' => by unfold dateLt; infer_instance

instance : IsTotal Date dateLe := ⟨by intro a b; unfold dateLe; omega⟩

instance : IsTrans Date dateLe := ⟨by intro a b c; unfold dateLe; omega⟩

/-- Gregorian leap-year test. -/
def isLeap (y : ℕ) : Bool :=
  decide ((y % 4 = 0 ∧ y % 100 ≠ 0) ∨ y % 400 = 0)

/-- Month lengths, January through December. -/
def monthLengths (leap : Bool) : List ℕ :=
  [31, if leap then 29 else 28, 31, 30, 31, 30, 31, 31, 30, 31, 30, 31]

/-- Days in the months strictly before month `m` (1-based). -/
def daysBeforeMonth (leap : Bool) (m : ℕ) : ℕ :=
  ((monthLengths leap).take (m - 1)).sum

/-- Number of days of month `m` (1-based) in a `leap`/non-leap year. -/
def daysInMonth (leap : Bool) (m : ℕ) : ℕ :=
  (monthLengths leap).getD (m - 1) 0

/-- Days in all years strictly before year `y` (proleptic Gregorian). -/
def daysBeforeYear (y : ℕ) : ℕ :=
  365 * (y - 1) + (y - 1) / 4 - (y - 1) / 100 + (y - 1) / 400

/-- `pd.Timestamp.toordinal`: proleptic Gregorian day count,
with day 1 of year 1 mapping to 1. -/
def toordinal (d : Date) : ℕ :=
  daysBeforeYear d.year + daysBeforeMonth (isLeap d.year) d.month + d.day

/-- `d + pd.DateOffset(months=k)`: shift by whole calendar months,
clamping the day to the length of the target month. -/
def addMonths (d : Date) (k : ℕ) : Date :=
  ⟨(d.year * 12 + (d.month - 1) + k) / 12,
   (d.year * 12 + (d.month - 1) + k) % 12 + 1,
   min d.day (daysInMonth (isLeap ((d.year * 12 + (d.month - 1) + k) / 12))
     ((d.year * 12 + (d.month - 1) + k) % 12 + 1))⟩

/-- The dates produced by the pipeline: a real calendar month of a positive
year, normalised to the first day of the month. -/
def Date.Valid (d : Date) : Prop :=
  1 ≤ d.year ∧ 1 ≤ d.month ∧ d.month ≤ 12 ∧ d.day = 1

instance (d : Date) : Decidable d.Valid := by unfold Date.Valid; infer_instance

/-- `Series.max()` on a date column: `none` (NaN) on an empty column. -/
def maxDate (l : List Date) : Option Date :=
  match l with
  | [] => none
  | a :: as => some (as.foldl (fun acc x => if dateLe acc x then x else acc) a)

/-! ## Group-by aggregation views -/

/-- The (sorted, duplicate-free) key column of a pandas `groupby`. -/
def groupKeys {α κ : Type} [DecidableEq κ] (le : κ → κ → Prop) [DecidableRel le]
    (key : α → κ) (rows : List α) : List κ :=
  ((rows.map key).dedup).insertionSort le

/-- `groupby(key)[val].sum()`: each distinct key with the sum of its group. -/
def groupbySum {α κ : Type} [DecidableEq κ] (le : κ → κ → Prop) [DecidableRel le]
    (key : α → κ) (val : α → ℚ) (rows : List α) : List (κ × ℚ) :=
  (groupKeys le key rows).map
    (fun k => (k, ((rows.filter (fun r => decide (key r = k))).map val).sum))

/-- By-date total (line 51): `df_filtered.groupby("Date")["Number of cases"].sum()`. -/
def trend (rows : List CleanRecord) : List (Date × ℚ) :=
  groupbySum dateLe (fun r => r.date) (fun r => r.numCases) rows

/-- Pair ordering by second component (case totals), for `sort_values`. -/
def sndLe (p q : String × ℚ) : Prop := p.2 ≤ q.2

instance : DecidableRel sndLe := fun p q => by unfold sndLe; infer_instance

instance : IsTotal (String × ℚ) sndLe := ⟨fun a b => le_total a.2 b.2⟩

instance : IsTrans (String × ℚ) sndLe := ⟨fun _ _ _ h h' => le_trans h h'⟩

/-- By-region total (line 62):
`groupby("Governorate")["Number of cases"].sum().sort_values(ascending=True)`. -/
def gov_data (rows : List CleanRecord) : List (String × ℚ) :=
  (groupbySum (fun a b : String => a ≤ b) (fun r => r.governorate)
      (fun r => r.numCases) rows).insertionSort sndLe

/-- `pd.to_datetime(Month, format="%m").dt.strftime("%B")`: the English
month name of a zero-padded month number (raises, i.e. `none`, otherwise). -/
def month_name (m : String) : Option String :=
  match m with
  | "01" => some "January"
  | "02" => some "February"
  | "03" => some "March"
  | "04" => some "April"
  | "05" => some "May"
  | "06" => some "June"
  | "07" => some "July"
  | "08" => some "August"
  | "09" => some "September"
  | "10" => some "October"
  | "11" => some "November"
  | "12" => some "December"
  | _ => none

/-- The distinct month names occurring in the table, as `groupby` keys
(rows whose month name is null are dropped by `groupby`). -/
def monthNameKeys (rows : List CleanRecord) : List String :=
  ((rows.filterMap (fun r => month_name r.month)).dedup).insertionSort
    (fun a b : String => a ≤ b)

/-- `groupby("Month Name")["Number of cases"].mean()` (line 74). -/
def monthly_avg_groups (rows : List CleanRecord) : List (String × ℚ) :=
  (monthNameKeys rows).map
    (fun mn =>
      let g := rows.filter (fun r => decide (month_name r.month = some mn))
      (mn, (g.map (fun r => r.numCases)).sum / (g.length : ℚ)))

/-- The canonical January→December order (lines 75–76). -/
def month_order : List String :=
  ["January", "February", "March", "April", "May", "June",
   "July", "August", "September", "October", "November", "December"]

/-- `Series.reindex(order)`: one entry per requested key, `none` (NaN)
for keys absent from the series. -/
def reindex (xs : List (String × ℚ)) (order : List String) : List (String × Option ℚ) :=
  order.map (fun k => (k, (xs.find? (fun p => decide (p.1 = k))).map Prod.snd))

/-- The seasonality view (lines 73–77): by-month-name mean reindexed into
the fixed January→December order. -/
def monthly_avg (rows : List CleanRecord) : List (String × Option ℚ) :=
  reindex (monthly_avg_groups rows) month_order

/-- KPI "Total Cases" (line 41): `int(df_filtered['Number of cases'].sum())`,
Python `int()` truncating toward zero. -/
def kpiTotalCases (rows : List CleanRecord) : ℤ :=
  let s := (rows.map (fun r => r.numCases)).sum
  if 0 ≤ s then ⌊s⌋ else ⌈s⌉

/-! ## Forecast (lines 87–99) -/

/-- Pair ordering by date, for `sort_values("Date")`. -/
def fstDateLe (p q : Date × ℚ) : Prop := dateLe p.1 q.1

instance : DecidableRel fstDateLe := fun p q => by unfold fstDateLe; infer_instance

instance : IsTotal (Date × ℚ) fstDateLe :=
  ⟨fun a b => IsTotal.total (r := dateLe) a.1 b.1⟩

instance : IsTrans (Date × ℚ) fstDateLe :=
  ⟨fun _ _ _ h h' => Trans.trans (r := dateLe) (s := dateLe) h h'⟩

/-- Lines 87–89: the by-date totals, sorted by date, with the day-ordinal
of each date appended (`Date`, `Number of cases`, `Date_Ordinal`). -/
def monthly_cases (rows : List CleanRecord) : List (Date × ℚ × ℕ) :=
  (((trend rows).insertionSort fstDateLe).map (fun p => (p.1, p.2, toordinal p.1)))

/-- The regression sample: `X = Date_Ordinal`, `y = Number of cases`. -/
def regression_points (rows : List CleanRecord) : List (ℚ × ℚ) :=
  (monthly_cases rows).map (fun t => ((t.2.2 : ℚ), t.2.1))

def sX (pts : List (ℚ × ℚ)) : ℚ := (pts.map Prod.fst).sum

def sY (pts : List (ℚ × ℚ)) : ℚ := (pts.map Prod.snd).sum

def sXX (pts : List (ℚ × ℚ)) : ℚ := (pts.map (fun p => p.1 ^ 2)).sum

def sXY (pts : List (ℚ × ℚ)) : ℚ := (pts.map (fun p => p.1 * p.2)).sum

def nQ (pts : List (ℚ × ℚ)) : ℚ := (pts.length : ℚ)

/-- `LinearRegression().fit(X, y)` (line 92): `none` models the `ValueError`
raised on an empty sample; otherwise the least-squares slope and intercept.
When the design matrix is degenerate (all `x` equal) the centred `lstsq`
returns the minimum-norm solution: slope `0`, intercept the mean of `y`. -/
def fitLinReg (pts : List (ℚ × ℚ)) : Option (ℚ × ℚ) :=
  if pts.isEmpty then none
  else if nQ pts * sXX pts - sX pts ^ 2 = 0 then
    some (0, sY pts / nQ pts)
  else
    some ((nQ pts * sXY pts - sX pts * sY pts) / (nQ pts * sXX pts - sX pts ^ 2),
      (sY pts - ((nQ pts * sXY pts - sX pts * sY pts) / (nQ pts * sXX pts - sX pts ^ 2)) * sX pts)
        / nQ pts)

/-- Sum of squared residuals of the line `y = a*x + b` on the sample. -/
def sse (pts : List (ℚ × ℚ)) (a b : ℚ) : ℚ :=
  (pts.map (fun p => (p.2 - (a * p.1 + b)) ^ 2)).sum

/-- Line 95: the six future dates, one to six calendar months past `last`. -/
def future_dates (last : Date) : List Date :=
  (List.range 6).map (fun i => addMonths last (i + 1))

/-- Lines 87–99: fit the line on the by-date totals, then predict at the six
future month starts.  `none` models the exception of `fit` on an empty
filtered dataset. -/
def forecast (rows : List CleanRecord) : Option (List (Date × ℚ)) :=
  match fitLinReg (regression_points rows) with
  | none => none
  | some (a, b) =>
    match maxDate ((monthly_cases rows).map (fun t => t.1)) with
    | none => none
    | some last =>
      some ((future_dates last).map (fun dd => (dd, a * (toordinal dd : ℚ) + b)))

/-! ## Concrete sample inputs used to instantiate the theorems below -/

/-- A January-2020 Beirut record with 10 cases. -/
def rawBeirutJan : RawRecord :=
  ⟨"http://example.org/resource/Beirut", "01-2020", some 10⟩

/-- A February-2020 Beirut record with 20 cases. -/
def rawBeirutFeb : RawRecord :=
  ⟨"http://example.org/resource/Beirut", "02-2020", some 20⟩

/-- A record whose `refPeriod` has a two-digit run before a four-digit year,
but the two digits (`13`) are not a real month. -/
def rawBadMonth : RawRecord :=
  ⟨"http://example.org/resource/Beirut", "13-2020", some 5⟩

/-- A record whose `refPeriod` month-year ("01-1000") is a real calendar
month but lies outside the `datetime64[ns]` timestamp range. -/
def rawOldYear : RawRecord :=
  ⟨"http://example.org/resource/Beirut", "01-1000", some 5⟩

/-- The cleaned table of the two Beirut records. -/
def beirutRows : List CleanRecord := load_data [rawBeirutJan, rawBeirutFeb]

/-! ## List-sum helpers -/

theorem listSum_map_add {α : Type} (l : List α) (f g : α → ℚ) :
    (l.map (fun x => f x + g x)).sum = (l.map f).sum + (l.map g).sum := by
  induction l with
  | nil => simp
  | cons x t ih => simp [ih]; ring

theorem listSum_map_zero {α : Type} (l : List α) :
    (l.map (fun _ => (0 : ℚ))).sum = 0 := by
  induction l with
  | nil => simp
  | cons x t ih => simp [ih]

theorem listSum_map_ite_of_not_mem {κ : Type} [DecidableEq κ]
    (ks : List κ) (k₀ : κ) (x : ℚ) (h : k₀ ∉ ks) :
    (ks.map (fun k => if k = k₀ then x else 0)).sum = 0 := by
  induction ks with
  | nil => simp
  | cons a t ih =>
    have ha : a ≠ k₀ := fun hh => h (hh ▸ List.mem_cons_self a t)
    have ht : k₀ ∉ t := fun hh => h (List.mem_cons_of_mem a hh)
    simp [ha, ih ht]

theorem listSum_map_ite_of_mem {κ : Type} [DecidableEq κ]
    (ks : List κ) (k₀ : κ) (x : ℚ) (hnd : ks.Nodup) (h : k₀ ∈ ks) :
    (ks.map (fun k => if k = k₀ then x else 0)).sum = x := by
  induction ks with
  | nil => simp at h
  | cons a t ih =>
    rcases List.mem_cons.mp h with h₁ | h₂
    · have hnt : k₀ ∉ t := h₁ ▸ (List.nodup_cons.mp hnd).1
      simp [h₁.symm, listSum_map_ite_of_not_mem t k₀ x hnt]
    · have ha : a ≠ k₀ := by
        rintro rfl
        exact (List.nodup_cons.mp hnd).1 h₂
      simp [ha, ih (List.nodup_cons.mp hnd).2 h₂]

/-- Summing group sums over a duplicate-free covering key list recovers the
total sum: each row is counted in exactly one group. -/
theorem sum_partition {α κ : Type} [DecidableEq κ] (key : α → κ) (val : α → ℚ) :
    ∀ (rows : List α) (ks : List κ), ks.Nodup → (∀ r ∈ rows, key r ∈ ks) →
      (ks.map (fun k => ((rows.filter (fun r => decide (key r = k))).map val).sum)).sum
        = (rows.map val).sum := by
  intro rows
  induction rows with
  | nil =>
    intro ks _ _
    simp only [List.filter_nil, List.map_nil, List.sum_nil]
    exact listSum_map_zero ks
  | cons r t ih =>
    intro ks hnd hcov
    have hr : key r ∈ ks := hcov r (List.mem_cons_self r t)
    have ht : ∀ x ∈ t, key x ∈ ks := fun x hx => hcov x (List.mem_cons_of_mem r hx)
    have hsplit :
        (ks.map (fun k => (((r :: t).filter (fun x => decide (key x = k))).map val).sum))
          = ks.map (fun k => (if k = key r then val r else 0)
              + ((t.filter (fun x => decide (key x = k))).map val).sum) := by
      apply List.map_congr_left
      intro k _
      by_cases hk : key r = k
      · simp [List.filter_cons, hk]
      · have : k ≠ key r := fun hh => hk hh.symm
        simp [List.filter_cons, hk, this]
    rw [hsplit, listSum_map_add, listSum_map_ite_of_mem ks (key r) (val r) hnd hr,
      ih ks hnd ht, List.map_cons, List.sum_cons]

/-! ## Group-by lemmas -/

theorem mem_groupKeys {α κ : Type} [DecidableEq κ] (le : κ → κ → Prop) [DecidableRel le]
    (key : α → κ) (rows : List α) (k : κ) :
    k ∈ groupKeys le key rows ↔ ∃ r ∈ rows, key r = k := by
  unfold groupKeys
  rw [(List.perm_insertionSort le _).mem_iff, List.mem_dedup, List.mem_map]

theorem groupKeys_nodup {α κ : Type} [DecidableEq κ] (le : κ → κ → Prop) [DecidableRel le]
    (key : α → κ) (rows : List α) : (groupKeys le key rows).Nodup :=
  ((List.perm_insertionSort le _).nodup_iff).mpr (List.nodup_dedup _)

theorem groupKeys_sorted {α κ : Type} [DecidableEq κ] (le : κ → κ → Prop) [DecidableRel le]
    [IsTotal κ le] [IsTrans κ le] (key : α → κ) (rows : List α) :
    List.Sorted le (groupKeys le key rows) :=
  List.sorted_insertionSort le _

theorem groupKeys_length {α κ : Type} [DecidableEq κ] (le : κ → κ → Prop) [DecidableRel le]
    (key : α → κ) (rows : List α) :
    (groupKeys le key rows).length = ((rows.map key).dedup).length :=
  (List.perm_insertionSort le _).length_eq

theorem groupbySum_map_fst {α κ : Type} [DecidableEq κ] (le : κ → κ → Prop) [DecidableRel le]
    (key : α → κ) (val : α → ℚ) (rows : List α) :
    (groupbySum le key val rows).map Prod.fst = groupKeys le key rows := by
  unfold groupbySum
  rw [List.map_map]
  exact List.map_id _

theorem mem_groupbySum_val {α κ : Type} [DecidableEq κ] (le : κ → κ → Prop) [DecidableRel le]
    (key : α → κ) (val : α → ℚ) (rows : List α) (p : κ × ℚ)
    (hp : p ∈ groupbySum le key val rows) :
    p.2 = ((rows.filter (fun r => decide (key r = p.1))).map val).sum := by
  unfold groupbySum at hp
  rcases List.mem_map.mp hp with ⟨k, _, hk⟩
  subst hk
  rfl

theorem sum_groupbySum {α κ : Type} [DecidableEq κ] (le : κ → κ → Prop) [DecidableRel le]
    (key : α → κ) (val : α → ℚ) (rows : List α) :
    ((groupbySum le key val rows).map Prod.snd).sum = (rows.map val).sum := by
  unfold groupbySum
  rw [List.map_map]
  have := sum_partition key val rows (groupKeys le key rows)
    (groupKeys_nodup le key rows)
    (fun r hr => (mem_groupKeys le key rows (key r)).mpr ⟨r, hr, rfl⟩)
  simpa using this

/-! ## Date lemmas -/

theorem dateLe_refl (d : Date) : dateLe d d := by
  unfold dateLe
  omega

theorem dateLt_of_le_of_ne {d d' : Date} (h : dateLe d d') (hne : d ≠ d') :
    dateLt d d' := by
  cases d with
  | mk y m dd =>
    cases d' with
    | mk y' m' dd' =>
      have hne' : ¬(y = y' ∧ m = m' ∧ dd = dd') := by
        intro hh
        exact hne (by rw [hh.1, hh.2.1, hh.2.2])
      unfold dateLe at h
      unfold dateLt
      dsimp only at h ⊢
      rcases h with h | ⟨he, h⟩
      · exact Or.inl h
      · refine Or.inr ⟨he, ?_⟩
        rcases h with h | ⟨hm, h⟩
        · exact Or.inl h
        · refine Or.inr ⟨hm, ?_⟩
          have : dd ≠ dd' := fun hh => hne' ⟨he, hm, hh⟩
          omega

theorem daysBeforeMonth_lt (leap : Bool) {m m' : ℕ} (h1 : 1 ≤ m) (h : m < m')
    (h2 : m' ≤ 12) : daysBeforeMonth leap m < daysBeforeMonth leap m' := by
  have key : ∀ b < 13, ∀ a < b, 1 ≤ a → daysBeforeMonth leap a < daysBeforeMonth leap b := by
    cases leap <;> decide
  exact key m' (by omega) m h h1

theorem daysBeforeMonth_le_335 (leap : Bool) {m : ℕ} (h2 : m ≤ 12) :
    daysBeforeMonth leap m ≤ 335 := by
  have key : ∀ a < 13, daysBeforeMonth leap a ≤ 335 := by
    cases leap <;> decide
  exact key m (by omega)

theorem daysBeforeYear_succ_ge (y : ℕ) (hy : 1 ≤ y) :
    daysBeforeYear y + 365 ≤ daysBeforeYear (y + 1) := by
  unfold daysBeforeYear
  have h4 : (y - 1) / 4 ≤ y / 4 := Nat.div_le_div_right (by omega)
  have h400 : (y - 1) / 400 ≤ y / 400 := Nat.div_le_div_right (by omega)
  have h100 : y / 100 - (y - 1) / 100 ≤ 1 := by omega
  omega

theorem daysBeforeYear_mono {y y' : ℕ} (h : y ≤ y') :
    daysBeforeYear y ≤ daysBeforeYear y' := by
  unfold daysBeforeYear
  have h4 : (y - 1) / 4 ≤ (y' - 1) / 4 := Nat.div_le_div_right (by omega)
  have h400 : (y - 1) / 400 ≤ (y' - 1) / 400 := Nat.div_le_div_right (by omega)
  have h100 : (y' - 1) / 100 - (y - 1) / 100 ≤ (y' - 1) - (y - 1) := by omega
  omega

/-- `toordinal` is strictly monotone on the dates the pipeline produces. -/
theorem toordinal_lt {d d' : Date} (hv : d.Valid) (hv' : d'.Valid)
    (h : dateLt d d') : toordinal d < toordinal d' := by
  obtain ⟨hy, hm1, hm2, hd⟩ := hv
  obtain ⟨hy', hm1', hm2', hd'⟩ := hv'
  unfold toordinal
  rcases h with hyy | ⟨hye, hmm⟩
  · have b1 : daysBeforeMonth (isLeap d.year) d.month ≤ 335 :=
      daysBeforeMonth_le_335 _ hm2
    have b2 : daysBeforeYear d.year + 365 ≤ daysBeforeYear (d.year + 1) :=
      daysBeforeYear_succ_ge _ hy
    have b3 : daysBeforeYear (d.year + 1) ≤ daysBeforeYear d'.year :=
      daysBeforeYear_mono (by omega)
    omega
  · rcases hmm with hmm | ⟨hme, hdd⟩
    · have hb := daysBeforeMonth_lt (isLeap d'.year) hm1 hmm hm2'
      rw [hye]
      omega
    · omega

theorem daysInMonth_pos (leap : Bool) {m : ℕ} (h1 : 1 ≤ m) (h2 : m ≤ 12) :
    1 ≤ daysInMonth leap m := by
  have key : ∀ a < 13, 1 ≤ a → 1 ≤ daysInMonth leap a := by
    cases leap <;> decide
  exact key m (by omega) h1

/-- On first-of-month dates, `addMonths` evaluates without day clamping. -/
theorem addMonths_eval {d : Date} (hv : d.Valid) (k : ℕ) :
    addMonths d k =
      ⟨(d.year * 12 + (d.month - 1) + k) / 12,
       (d.year * 12 + (d.month - 1) + k) % 12 + 1, 1⟩ := by
  obtain ⟨hy, hm1, hm2, hd⟩ := hv
  unfold addMonths
  rw [hd]
  have h1 : 1 ≤ daysInMonth (isLeap ((d.year * 12 + (d.month - 1) + k) / 12))
      ((d.year * 12 + (d.month - 1) + k) % 12 + 1) :=
    daysInMonth_pos _ (by omega) (by omega)
  rw [Nat.min_eq_left h1]

theorem addMonths_valid {d : Date} (hv : d.Valid) (k : ℕ) : (addMonths d k).Valid := by
  rw [addMonths_eval hv k]
  obtain ⟨hy, hm1, hm2, hd⟩ := hv
  refine ⟨?_, ?_, ?_, rfl⟩ <;> dsimp only <;> omega

theorem addMonths_succ {d : Date} (hv : d.Valid) (k : ℕ) :
    addMonths d (k + 1) = addMonths (addMonths d k) 1 := by
  obtain ⟨hy, hm1, hm2, hd⟩ := hv
  have hv' : d.Valid := ⟨hy, hm1, hm2, hd⟩
  have hvm : (Date.mk ((d.year * 12 + (d.month - 1) + k) / 12)
      ((d.year * 12 + (d.month - 1) + k) % 12 + 1) 1).Valid := by
    refine ⟨?_, ?_, ?_, rfl⟩ <;> dsimp only <;> omega
  rw [addMonths_eval hv' (k + 1), addMonths_eval hv' k, addMonths_eval hvm 1]
  dsimp only
  simp only [Date.mk.injEq]
  refine ⟨by omega, by omega, trivial⟩

theorem addMonths_dateLt {d : Date} (hv : d.Valid) {k k' : ℕ} (h : k < k') :
    dateLt (addMonths d k) (addMonths d k') := by
  rw [addMonths_eval hv k, addMonths_eval hv k']
  obtain ⟨hy, hm1, hm2, hd⟩ := hv
  unfold dateLt
  dsimp only
  omega

theorem maxDate_foldl_spec :
    ∀ (as : List Date) (a : Date),
      (as.foldl (fun acc x => if dateLe acc x then x else acc) a) ∈ a :: as ∧
      dateLe a (as.foldl (fun acc x => if dateLe acc x then x else acc) a) ∧
      ∀ x ∈ as, dateLe x (as.foldl (fun acc x => if dateLe acc x then x else acc) a) := by
  intro as
  induction as with
  | nil => exact fun a => ⟨List.mem_cons_self a [], dateLe_refl a, by simp⟩
  | cons x t ih =>
    intro a
    by_cases hax : dateLe a x
    · have step : (x :: t).foldl (fun acc z => if dateLe acc z then z else acc) a
          = t.foldl (fun acc z => if dateLe acc z then z else acc) x := by
        simp [List.foldl_cons, if_pos hax]
      obtain ⟨hmem, hle, hall⟩ := ih x
      rw [step]
      refine ⟨?_, ?_, ?_⟩
      · rcases List.mem_cons.mp hmem with h1 | h2
        · rw [h1]; exact List.mem_cons_of_mem a (List.mem_cons_self x t)
        · exact List.mem_cons_of_mem a (List.mem_cons_of_mem x h2)
      · exact Trans.trans (r := dateLe) (s := dateLe) hax hle
      · intro z hz
        rcases List.mem_cons.mp hz with h1 | h2
        · rw [h1]; exact hle
        · exact hall z h2
    · have step : (x :: t).foldl (fun acc z => if dateLe acc z then z else acc) a
          = t.foldl (fun acc z => if dateLe acc z then z else acc) a := by
        simp [List.foldl_cons, if_neg hax]
      obtain ⟨hmem, hle, hall⟩ := ih a
      rw [step]
      have hxa : dateLe x a := (IsTotal.total (r := dateLe) a x).resolve_left hax
      refine ⟨?_, hle, ?_⟩
      · rcases List.mem_cons.mp hmem with h1 | h2
        · rw [h1]; exact List.mem_cons_self a (x :: t)
        · exact List.mem_cons_of_mem a (List.mem_cons_of_mem x h2)
      · intro z hz
        rcases List.mem_cons.mp hz with h1 | h2
        · rw [h1]; exact Trans.trans (r := dateLe) (s := dateLe) hxa hle
        · exact hall z h2

theorem maxDate_spec {l : List Date} (h : l ≠ []) :
    ∃ m, maxDate l = some m ∧ m ∈ l ∧ ∀ x ∈ l, dateLe x m := by
  cases l with
  | nil => exact absurd rfl h
  | cons a as =>
    obtain ⟨hmem, hle, hall⟩ := maxDate_foldl_spec as a
    refine ⟨_, rfl, hmem, ?_⟩
    intro x hx
    rcases List.mem_cons.mp hx with h1 | h2
    · rw [h1]; exact hle
    · exact hall x h2

/-! ## Pipeline validity -/

theorem to_datetime_valid {ys ms : String} {d : Date} (h : to_datetime ys ms = some d) :
    d.Valid := by
  unfold to_datetime at h
  rcases hy : parseNat ys.data with _ | y <;> rcases hm : parseNat ms.data with _ | m <;>
    rw [hy, hm] at h <;> dsimp only at h
  · cases h
  · cases h
  · cases h
  · by_cases hc : 1 ≤ m ∧ m ≤ 12 ∧ inTimestampBounds y m
    · rw [if_pos hc] at h
      cases h
      refine ⟨?_, hc.1, hc.2.1, rfl⟩
      show 1 ≤ y
      rcases hc.2.2 with h1 | h1 | h1 <;> omega
    · rw [if_neg hc] at h
      cases h

theorem cleanRow_valid {r : RawRecord} {c : CleanRecord} (h : cleanRow r = some c) :
    c.date.Valid := by
  unfold cleanRow at h
  rcases hnc : r.numCases with _ | n <;> rw [hnc] at h <;> dsimp only at h
  · cases h
  · rcases hg : extractGov r.refArea with _ | g <;>
      rcases hys : findYear4 r.refPeriod.data with _ | ys <;>
      rcases hms : findMonth2 r.refPeriod.data with _ | ms <;>
      rw [hg, hys, hms] at h <;> dsimp only at h
    · cases h
    · cases h
    · cases h
    · cases h
    · cases h
    · cases h
    · cases h
    · rcases hdt : to_datetime ys ms with _ | d <;> rw [hdt] at h <;> dsimp only at h
      · cases h
      · cases h
        exact to_datetime_valid hdt

theorem load_data_valid (raws : List RawRecord) :
    ∀ c ∈ load_data raws, c.date.Valid := by
  intro c hc
  unfold load_data at hc
  rcases List.mem_filterMap.mp hc with ⟨r, _, hr⟩
  exact cleanRow_valid hr

theorem filterData_subset {rows : List CleanRecord} {years govs : List String} :
    ∀ c ∈ filterData rows years govs, c ∈ rows := by
  intro c hc
  exact (List.mem_filter.mp hc).1

/-! ## Structure of the by-date series -/

theorem trend_map_fst (rows : List CleanRecord) :
    (trend rows).map Prod.fst = groupKeys dateLe (fun r => r.date) rows :=
  groupbySum_map_fst _ _ _ _

theorem mem_trend_fst_valid {rows : List CleanRecord}
    (hval : ∀ r ∈ rows, r.date.Valid) :
    ∀ p ∈ trend rows, p.1.Valid := by
  intro p hp
  have h1 : p.1 ∈ (trend rows).map Prod.fst := List.mem_map_of_mem Prod.fst hp
  rw [trend_map_fst] at h1
  rcases (mem_groupKeys _ _ _ _).mp h1 with ⟨r, hr, hkey⟩
  exact hkey ▸ hval r hr

theorem groupKeys_pairwise_dateLt (rows : List CleanRecord) :
    (groupKeys dateLe (fun r => r.date) rows).Pairwise dateLt := by
  have hs : List.Sorted dateLe (groupKeys dateLe (fun r => r.date) rows) :=
    groupKeys_sorted dateLe (fun r => r.date) rows
  have hn : (groupKeys dateLe (fun r => r.date) rows).Nodup :=
    groupKeys_nodup dateLe (fun r => r.date) rows
  exact (List.Pairwise.and hs hn).imp (fun h => dateLt_of_le_of_ne h.1 h.2)

theorem trend_pairwise_dateLt (rows : List CleanRecord) :
    (trend rows).Pairwise (fun p q => dateLt p.1 q.1) := by
  have h := groupKeys_pairwise_dateLt rows
  have h2 : ((trend rows).map Prod.fst).Pairwise dateLt := by
    rw [trend_map_fst]
    exact h
  exact (List.pairwise_map.mp h2)

theorem trend_sorted_fstDateLe (rows : List CleanRecord) :
    List.Sorted fstDateLe (trend rows) :=
  (trend_pairwise_dateLt rows).imp
    (fun h => by
      unfold fstDateLe
      unfold dateLt at h
      unfold dateLe
      omega)

theorem monthly_cases_eq (rows : List CleanRecord) :
    monthly_cases rows = (trend rows).map (fun p => (p.1, p.2, toordinal p.1)) := by
  unfold monthly_cases
  rw [List.Sorted.insertionSort_eq (trend_sorted_fstDateLe rows)]

theorem regression_points_eq (rows : List CleanRecord) :
    regression_points rows = (trend rows).map (fun p => ((toordinal p.1 : ℚ), p.2)) := by
  unfold regression_points
  rw [monthly_cases_eq, List.map_map]
  rfl

theorem regression_points_pairwise {rows : List CleanRecord}
    (hval : ∀ r ∈ rows, r.date.Valid) :
    (regression_points rows).Pairwise (fun p q => p.1 < q.1) := by
  rw [regression_points_eq]
  refine List.pairwise_map.mpr ?_
  refine List.Pairwise.imp_of_mem ?_ (trend_pairwise_dateLt rows)
  intro p q hp hq h
  have hvp : p.1.Valid := mem_trend_fst_valid hval p hp
  have hvq : q.1.Valid := mem_trend_fst_valid hval q hq
  dsimp only
  exact_mod_cast toordinal_lt hvp hvq h

/-! ## Least-squares algebra -/

theorem sum_sq_sub_expand (x : ℚ) (t : List ℚ) :
    (t.map (fun u => (x - u) ^ 2)).sum
      = (t.length : ℚ) * x ^ 2 - 2 * x * t.sum + (t.map (fun u => u ^ 2)).sum := by
  induction t with
  | nil => simp
  | cons u t ih =>
    simp only [List.map_cons, List.sum_cons, List.length_cons, ih]
    push_cast
    ring

theorem nvar_expand (x : ℚ) (t : List ℚ) :
    ((x :: t).length : ℚ) * ((x :: t).map (fun u => u ^ 2)).sum - ((x :: t).sum) ^ 2
      = ((t.length : ℚ) * (t.map (fun u => u ^ 2)).sum - (t.sum) ^ 2)
        + (t.map (fun u => (x - u) ^ 2)).sum := by
  rw [sum_sq_sub_expand]
  simp only [List.map_cons, List.sum_cons, List.length_cons]
  push_cast
  ring

theorem nvar_nonneg (xs : List ℚ) :
    0 ≤ (xs.length : ℚ) * (xs.map (fun u => u ^ 2)).sum - (xs.sum) ^ 2 := by
  induction xs with
  | nil => simp
  | cons x t ih =>
    rw [nvar_expand]
    have hsq : 0 ≤ (t.map (fun u => (x - u) ^ 2)).sum :=
      List.sum_nonneg (by
        intro a ha
        rcases List.mem_map.mp ha with ⟨u, _, hu⟩
        rw [← hu]
        positivity)
    linarith

theorem nvar_pos {xs : List ℚ} {u v : ℚ} (hu : u ∈ xs) (hv : v ∈ xs) (huv : u ≠ v) :
    0 < (xs.length : ℚ) * (xs.map (fun w => w ^ 2)).sum - (xs.sum) ^ 2 := by
  induction xs with
  | nil => cases hu
  | cons x t ih =>
    rw [nvar_expand]
    have hsq_nonneg : ∀ a ∈ t.map (fun w => (x - w) ^ 2), (0 : ℚ) ≤ a := by
      intro a ha
      rcases List.mem_map.mp ha with ⟨w, _, hw⟩
      rw [← hw]
      positivity
    rcases List.mem_cons.mp hu with hux | hut
    · rcases List.mem_cons.mp hv with hvx | hvt
      · exact absurd (hux.trans hvx.symm) huv
      · have hxv : x - v ≠ 0 := sub_ne_zero.mpr (fun hh => huv (hux.trans hh))
        have hmem : (x - v) ^ 2 ∈ t.map (fun w => (x - w) ^ 2) :=
          List.mem_map_of_mem _ hvt
        have hpos : (0 : ℚ) < (x - v) ^ 2 :=
          (sq_nonneg _).lt_of_ne (Ne.symm (pow_ne_zero 2 hxv))
        have hle := List.single_le_sum hsq_nonneg _ hmem
        have := nvar_nonneg t
        linarith
    · rcases List.mem_cons.mp hv with hvx | hvt
      · have hxu : x - u ≠ 0 :=
          sub_ne_zero.mpr (fun hh => huv ((hvx.trans hh).symm))
        have hmem : (x - u) ^ 2 ∈ t.map (fun w => (x - w) ^ 2) :=
          List.mem_map_of_mem _ hut
        have hpos : (0 : ℚ) < (x - u) ^ 2 :=
          (sq_nonneg _).lt_of_ne (Ne.symm (pow_ne_zero 2 hxu))
        have hle := List.single_le_sum hsq_nonneg _ hmem
        have := nvar_nonneg t
        linarith
      · have := ih hut hvt
        have hsum : (0 : ℚ) ≤ (t.map (fun w => (x - w) ^ 2)).sum :=
          List.sum_nonneg hsq_nonneg
        linarith

theorem fitLinReg_nil : fitLinReg [] = none := by
  unfold fitLinReg
  simp

theorem fitLinReg_of_denom_eq {p : ℚ × ℚ} {t : List (ℚ × ℚ)}
    (hd : nQ (p :: t) * sXX (p :: t) - sX (p :: t) ^ 2 = 0) :
    fitLinReg (p :: t) = some (0, sY (p :: t) / nQ (p :: t)) := by
  unfold fitLinReg
  rw [List.isEmpty_cons, if_neg (by simp), if_pos hd]

theorem fitLinReg_of_denom_ne {p : ℚ × ℚ} {t : List (ℚ × ℚ)}
    (hd : nQ (p :: t) * sXX (p :: t) - sX (p :: t) ^ 2 ≠ 0) :
    fitLinReg (p :: t)
      = some ((nQ (p :: t) * sXY (p :: t) - sX (p :: t) * sY (p :: t))
            / (nQ (p :: t) * sXX (p :: t) - sX (p :: t) ^ 2),
          (sY (p :: t) - ((nQ (p :: t) * sXY (p :: t) - sX (p :: t) * sY (p :: t))
            / (nQ (p :: t) * sXX (p :: t) - sX (p :: t) ^ 2)) * sX (p :: t)) / nQ (p :: t)) := by
  unfold fitLinReg
  rw [List.isEmpty_cons, if_neg (by simp), if_neg hd]

theorem fitLinReg_isSome {pts : List (ℚ × ℚ)} (hne : pts ≠ []) :
    ∃ a b, fitLinReg pts = some (a, b) := by
  cases pts with
  | nil => exact absurd rfl hne
  | cons p t =>
    by_cases hd : nQ (p :: t) * sXX (p :: t) - sX (p :: t) ^ 2 = 0
    · exact ⟨_, _, fitLinReg_of_denom_eq hd⟩
    · exact ⟨_, _, fitLinReg_of_denom_ne hd⟩

theorem nQ_ne_zero {pts : List (ℚ × ℚ)} (hne : pts ≠ []) : nQ pts ≠ 0 := by
  unfold nQ
  have : pts.length ≠ 0 := fun h => hne (List.length_eq_zero.mp h)
  exact_mod_cast this

/-- The fitted coefficients satisfy the least-squares normal equations. -/
theorem fit_normal_equations {pts : List (ℚ × ℚ)} {a b : ℚ}
    (hd : nQ pts * sXX pts - sX pts ^ 2 ≠ 0) (h : fitLinReg pts = some (a, b)) :
    a * sXX pts + b * sX pts = sXY pts ∧ a * sX pts + b * nQ pts = sY pts := by
  cases pts with
  | nil => rw [fitLinReg_nil] at h; cases h
  | cons p t =>
    have hn : nQ (p :: t) ≠ 0 := nQ_ne_zero (by simp)
    rw [fitLinReg_of_denom_ne hd] at h
    have hab := Option.some.inj h
    have ha : a = (nQ (p :: t) * sXY (p :: t) - sX (p :: t) * sY (p :: t))
        / (nQ (p :: t) * sXX (p :: t) - sX (p :: t) ^ 2) := (Prod.mk.injEq _ _ _ _ ▸ hab).1.symm
    have hb : b = (sY (p :: t) - ((nQ (p :: t) * sXY (p :: t) - sX (p :: t) * sY (p :: t))
        / (nQ (p :: t) * sXX (p :: t) - sX (p :: t) ^ 2)) * sX (p :: t)) / nQ (p :: t) :=
      (Prod.mk.injEq _ _ _ _ ▸ hab).2.symm
    subst ha
    subst hb
    constructor
    · field_simp
      ring
    · field_simp
      ring

/-- Decomposition of the residual sum of squares around any reference line. -/
theorem sse_identity (pts : List (ℚ × ℚ)) (a b a' b' : ℚ) :
    sse pts a' b' = sse pts a b + (pts.map (fun p => ((a - a') * p.1 + (b - b')) ^ 2)).sum
      + 2 * (a - a') * (sXY pts - a * sXX pts - b * sX pts)
      + 2 * (b - b') * (sY pts - a * sX pts - b * nQ pts) := by
  induction pts with
  | nil => simp [sse, sX, sY, sXX, sXY, nQ]
  | cons p t ih =>
    simp only [sse, sX, sY, sXX, sXY, nQ, List.map_cons, List.sum_cons,
      List.length_cons] at ih ⊢
    push_cast
    linear_combination ih

/-- A solution of the normal equations minimises the sum of squared errors. -/
theorem sse_min {pts : List (ℚ × ℚ)} {a b : ℚ}
    (hne1 : a * sXX pts + b * sX pts = sXY pts)
    (hne2 : a * sX pts + b * nQ pts = sY pts) :
    ∀ a' b', sse pts a b ≤ sse pts a' b' := by
  intro a' b'
  rw [sse_identity pts a b a' b']
  have h1 : sXY pts - a * sXX pts - b * sX pts = 0 := by linear_combination -hne1
  have h2 : sY pts - a * sX pts - b * nQ pts = 0 := by linear_combination -hne2
  rw [h1, h2]
  have hsq : 0 ≤ (pts.map (fun p => ((a - a') * p.1 + (b - b')) ^ 2)).sum :=
    List.sum_nonneg (by
      intro x hx
      rcases List.mem_map.mp hx with ⟨pp, _, hpp⟩
      rw [← hpp]
      positivity)
  linarith

/-- Two sample points with distinct abscissae make the denominator of the
slope formula strictly positive. -/
theorem denom_pos_of_two {pts : List (ℚ × ℚ)} (h2 : 2 ≤ pts.length)
    (hpw : pts.Pairwise (fun p q => p.1 < q.1)) :
    0 < nQ pts * sXX pts - sX pts ^ 2 := by
  cases pts with
  | nil => simp at h2
  | cons p t =>
    cases t with
    | nil => simp at h2
    | cons q t' =>
      have hlt : p.1 < q.1 :=
        (List.pairwise_cons.mp hpw).1 q (List.mem_cons_self q t')
      have hne : p.1 ≠ q.1 := ne_of_lt hlt
      have hu : p.1 ∈ (p :: q :: t').map Prod.fst :=
        List.mem_map_of_mem Prod.fst (List.mem_cons_self p (q :: t'))
      have hv : q.1 ∈ (p :: q :: t').map Prod.fst :=
        List.mem_map_of_mem Prod.fst
          (List.mem_cons_of_mem p (List.mem_cons_self q t'))
      have h := nvar_pos hu hv hne
      have e1 : (((p :: q :: t').map Prod.fst).length : ℚ) = nQ (p :: q :: t') := by
        rw [List.length_map]
        rfl
      have e2 : (((p :: q :: t').map Prod.fst).map (fun w => w ^ 2)).sum
          = sXX (p :: q :: t') := by
        rw [List.map_map]
        rfl
      have e3 : ((p :: q :: t').map Prod.fst).sum = sX (p :: q :: t') := rfl
      rw [e1, e2, e3] at h
      exact h

/-- Unfolding of the forecast stage once the fit and the latest date exist. -/
theorem forecast_eq {rows : List CleanRecord} {a b : ℚ} {last : Date}
    (hfit : fitLinReg (regression_points rows) = some (a, b))
    (hmax : maxDate ((monthly_cases rows).map (fun t => t.1)) = some last) :
    forecast rows
      = some ((future_dates last).map (fun dd => (dd, a * (toordinal dd : ℚ) + b))) := by
  unfold forecast
  rw [hfit, hmax]

theorem forecast_none {rows : List CleanRecord}
    (hfit : fitLinReg (regression_points rows) = none) :
    forecast rows = none := by
  unfold forecast
  rw [hfit]

theorem trend_length (rows : List CleanRecord) :
    (trend rows).length = ((rows.map (fun r => r.date)).dedup).length := by
  unfold trend groupbySum
  rw [List.length_map]
  exact groupKeys_length _ _ _

theorem monthly_cases_length (rows : List CleanRecord) :
    (monthly_cases rows).length = (trend rows).length := by
  rw [monthly_cases_eq, List.length_map]

theorem regression_points_length (rows : List CleanRecord) :
    (regression_points rows).length = (trend rows).length := by
  rw [regression_points_eq, List.length_map]

theorem find?_map_keyed {κ β : Type} [DecidableEq κ] (ks : List κ) (f : κ → β) (k₀ : κ) :
    ((ks.map (fun k => (k, f k))).find? (fun p => decide (p.1 = k₀)))
      = if k₀ ∈ ks then some (k₀, f k₀) else none := by
  induction ks with
  | nil => simp
  | cons a t ih =>
    by_cases ha : a = k₀
    · subst ha
      rw [List.map_cons, List.find?_cons_of_pos _ (by simp), if_pos (List.mem_cons_self a t)]
    · rw [List.map_cons, List.find?_cons_of_neg _ (by simp [ha]), ih]
      by_cases hm : k₀ ∈ t
      · rw [if_pos hm, if_pos (List.mem_cons_of_mem a hm)]
      · rw [if_neg hm, if_neg (by
          intro hc
          rcases List.mem_cons.mp hc with h1 | h2
          · exact ha h1.symm
          · exact hm h2)]

theorem mem_monthNameKeys (rows : List CleanRecord) (mn : String) :
    mn ∈ monthNameKeys rows ↔ ∃ r ∈ rows, month_name r.month = some mn := by
  unfold monthNameKeys
  rw [(List.perm_insertionSort _ _).mem_iff, List.mem_dedup, List.mem_filterMap]

theorem monthly_cases_dates (rows : List CleanRecord) :
    (monthly_cases rows).map (fun t => t.1) = (trend rows).map Prod.fst := by
  rw [monthly_cases_eq, List.map_map]
  rfl

theorem maxDate_trend_valid {rows : List CleanRecord}
    (hval : ∀ r ∈ rows, r.date.Valid) {last : Date}
    (hmax : maxDate ((monthly_cases rows).map (fun t => t.1)) = some last) :
    last.Valid := by
  have hne : (monthly_cases rows).map (fun t => t.1) ≠ [] := by
    intro h
    rw [h] at hmax
    cases hmax
  obtain ⟨m, hm, hmem, _⟩ := maxDate_spec hne
  rw [hmax] at hm
  have hml : m = last := (Option.some.inj hm).symm
  rw [← hml]
  rw [monthly_cases_dates] at hmem
  rcases List.mem_map.mp hmem with ⟨p, hp, hpe⟩
  exact hpe ▸ mem_trend_fst_valid hval p hp

/-! ## Claim theorems -/

/-- C3: for every filtered table, the sum of the by-date total view and the
sum of the by-region total view each equal the total sum of
`Number of cases` over the table (conservation of total across grouping). -/
theorem c3_conservation (rows : List CleanRecord) :
    ((trend rows).map Prod.snd).sum = (rows.map (fun r => r.numCases)).sum ∧
    ((gov_data rows).map Prod.snd).sum = (rows.map (fun r => r.numCases)).sum := by
  constructor
  · exact sum_groupbySum _ _ _ _
  · unfold gov_data
    rw [((List.perm_insertionSort sndLe _).map Prod.snd).sum_eq]
    exact sum_groupbySum _ _ _ _

/-- C9: the by-region view groups rows by `Governorate` and sums
`Number of cases` within each group (each region appearing exactly once,
exactly for the regions present, with the group's summed — not averaged —
total), and its entries are ordered ascending by the summed total. -/
theorem c9_gov_data (rows : List CleanRecord) :
    (gov_data rows).Perm (groupbySum (fun a b : String => a ≤ b)
        (fun r => r.governorate) (fun r => r.numCases) rows) ∧
    (∀ p ∈ gov_data rows,
      p.2 = ((rows.filter (fun r => decide (r.governorate = p.1))).map
          (fun r => r.numCases)).sum) ∧
    ((gov_data rows).map Prod.fst).Nodup ∧
    (∀ g : String, g ∈ (gov_data rows).map Prod.fst ↔ ∃ r ∈ rows, r.governorate = g) ∧
    (gov_data rows).Pairwise (fun p q => p.2 ≤ q.2) := by
  have hperm : (gov_data rows).Perm (groupbySum (fun a b : String => a ≤ b)
      (fun r => r.governorate) (fun r => r.numCases) rows) :=
    List.perm_insertionSort sndLe _
  have hmapfst : ((gov_data rows).map Prod.fst).Perm
      (groupKeys (fun a b : String => a ≤ b) (fun r => r.governorate) rows) := by
    rw [← groupbySum_map_fst (fun a b : String => a ≤ b)
      (fun r => r.governorate) (fun r => r.numCases) rows]
    exact hperm.map Prod.fst
  refine ⟨hperm, ?_, ?_, ?_, ?_⟩
  · intro p hp
    exact mem_groupbySum_val _ _ _ _ p (hperm.mem_iff.mp hp)
  · exact hmapfst.nodup_iff.mpr (groupKeys_nodup _ _ _)
  · intro g
    rw [hmapfst.mem_iff]
    exact mem_groupKeys _ _ _ g
  · exact (List.sorted_insertionSort sndLe _).imp (fun h => h)

/-- C9 witness: in the concrete Beirut table, "Beirut" is a region of the
by-region view because a row carries it. -/
theorem c9_gov_data_witness : "Beirut" ∈ (gov_data beirutRows).map Prod.fst :=
  ((c9_gov_data beirutRows).2.2.2.1 "Beirut").mpr
    ⟨⟨⟨2020, 1, 1⟩, "2020", "01", "Beirut", (10 : ℚ)⟩, by decide, rfl⟩

/-- C7: the by-calendar-month mean view has exactly the twelve entries
January through December in that fixed order; a month that occurs in the
data maps to the arithmetic mean of `Number of cases` over its rows, and a
month that does not occur maps to a missing value (`none`), not zero. -/
theorem c7_monthly_avg (rows : List CleanRecord) :
    (monthly_avg rows).map Prod.fst = month_order ∧
    (monthly_avg rows).length = 12 ∧
    ∀ mn val, (mn, val) ∈ monthly_avg rows →
      ((∃ r ∈ rows, month_name r.month = some mn) →
        val = some (((rows.filter (fun r => decide (month_name r.month = some mn))).map
            (fun r => r.numCases)).sum
          / ((rows.filter (fun r => decide (month_name r.month = some mn))).length : ℚ))) ∧
      ((¬ ∃ r ∈ rows, month_name r.month = some mn) → val = none) := by
  refine ⟨?_, ?_, ?_⟩
  · unfold monthly_avg reindex
    rw [List.map_map]
    exact List.map_id _
  · unfold monthly_avg reindex
    rw [List.length_map]
    rfl
  · intro mn val hmem
    unfold monthly_avg reindex at hmem
    rcases List.mem_map.mp hmem with ⟨k, _, hk⟩
    have hkm : k = mn := (Prod.mk.injEq _ _ _ _ ▸ hk).1
    have hval : val = ((monthly_avg_groups rows).find?
        (fun p => decide (p.1 = k))).map Prod.snd := ((Prod.mk.injEq _ _ _ _ ▸ hk).2).symm
    rw [hkm] at hval
    have hfind := find?_map_keyed (monthNameKeys rows)
      (fun k =>
        ((rows.filter (fun r => decide (month_name r.month = some k))).map
          (fun r => r.numCases)).sum
        / ((rows.filter (fun r => decide (month_name r.month = some k))).length : ℚ)) mn
    constructor
    · intro hex
      have hin : mn ∈ monthNameKeys rows := (mem_monthNameKeys rows mn).mpr hex
      rw [hval]
      unfold monthly_avg_groups
      rw [hfind, if_pos hin]
      rfl
    · intro hex
      have hin : mn ∉ monthNameKeys rows := fun hc => hex ((mem_monthNameKeys rows mn).mp hc)
      rw [hval]
      unfold monthly_avg_groups
      rw [hfind, if_neg hin]
      rfl

/-- C7 witness: January occurs in the concrete Beirut table, and its entry
in the seasonality view is the mean over its rows. -/
theorem c7_monthly_avg_witness :
    ∃ val, ("January", val) ∈ monthly_avg beirutRows ∧
      (∃ r ∈ beirutRows, month_name r.month = some "January") ∧
      val = some (((beirutRows.filter
            (fun r => decide (month_name r.month = some "January"))).map
          (fun r => r.numCases)).sum
        / ((beirutRows.filter
            (fun r => decide (month_name r.month = some "January"))).length : ℚ)) := by
  have hmem : ("January", ((monthly_avg_groups beirutRows).find?
      (fun p => decide (p.1 = "January"))).map Prod.snd) ∈ monthly_avg beirutRows := by
    unfold monthly_avg reindex
    exact List.mem_map_of_mem _ (by decide)
  have hex : ∃ r ∈ beirutRows, month_name r.month = some "January" := by decide
  exact ⟨_, hmem, hex, ((c7_monthly_avg beirutRows).2.2 "January" _ hmem).1 hex⟩

theorem load_data_eq_filterMap (raws : List RawRecord) :
    load_data raws = raws.filterMap cleanRow := by
  unfold load_data
  induction raws with
  | nil => rfl
  | cons r t ih =>
    rw [List.filter_cons]
    by_cases hr : r.numCases.isSome
    · rw [if_pos hr, List.filterMap_cons, List.filterMap_cons]
      cases hc : cleanRow r with
      | none =>
        dsimp only
        exact ih
      | some c =>
        dsimp only
        rw [ih]
    · have hcr : cleanRow r = none := by
        unfold cleanRow
        rcases hnc : r.numCases with _ | n
        · rfl
        · rw [hnc] at hr
          simp at hr
      rw [if_neg hr, List.filterMap_cons, hcr]
      dsimp only
      exact ih

/-- Per-row characterisation of the cleaner: a raw record yields a clean row
iff the case count is non-null, the `refArea` regex and both `refPeriod`
regexes match, and the extracted year/month strings denote a genuine
calendar month (month between 1 and 12) whose first day is a representable
`datetime64[ns]` timestamp. -/
theorem cleanRow_some_iff (r : RawRecord) (c : CleanRecord) :
    cleanRow r = some c ↔
      ∃ n g ys ms y m, r.numCases = some n ∧ extractGov r.refArea = some g ∧
        findYear4 r.refPeriod.data = some ys ∧ findMonth2 r.refPeriod.data = some ms ∧
        parseNat ys.data = some y ∧ parseNat ms.data = some m ∧
        1 ≤ m ∧ m ≤ 12 ∧ inTimestampBounds y m ∧ c = ⟨⟨y, m, 1⟩, ys, ms, g, n⟩ := by
  constructor
  · intro h
    unfold cleanRow at h
    rcases hnc : r.numCases with _ | n <;> rw [hnc] at h <;> dsimp only at h
    · cases h
    · rcases hg : extractGov r.refArea with _ | g <;>
        rcases hys : findYear4 r.refPeriod.data with _ | ys <;>
        rcases hms : findMonth2 r.refPeriod.data with _ | ms <;>
        rw [hg, hys, hms] at h <;> dsimp only at h
      · cases h
      · cases h
      · cases h
      · cases h
      · cases h
      · cases h
      · cases h
      · rcases hdt : to_datetime ys ms with _ | d <;> rw [hdt] at h <;> dsimp only at h
        · cases h
        · have hc : c = ⟨d, ys, ms, g, n⟩ := (Option.some.inj h).symm
          unfold to_datetime at hdt
          rcases hy : parseNat ys.data with _ | y <;>
            rcases hm : parseNat ms.data with _ | m <;>
            rw [hy, hm] at hdt <;> dsimp only at hdt
          · cases hdt
          · cases hdt
          · cases hdt
          · by_cases hcond : 1 ≤ m ∧ m ≤ 12 ∧ inTimestampBounds y m
            · rw [if_pos hcond] at hdt
              have hd : d = ⟨y, m, 1⟩ := (Option.some.inj hdt).symm
              exact ⟨n, g, ys, ms, y, m, rfl, rfl, rfl, rfl, hy, hm,
                hcond.1, hcond.2.1, hcond.2.2, by rw [hc, hd]⟩
            · rw [if_neg hcond] at hdt
              cases hdt
  · rintro ⟨n, g, ys, ms, y, m, hn, hg, hys, hms, hy, hm, h1, h2, h3, hc⟩
    unfold cleanRow
    rw [hn]
    dsimp only
    rw [hg, hys, hms]
    dsimp only
    unfold to_datetime
    rw [hy, hm]
    dsimp only
    rw [if_pos ⟨h1, h2, h3⟩]
    dsimp only
    rw [hc]

/-- C1 counterexample: two records meet every condition stated by the claim
— non-null case count, matching `refArea` pattern, a 2-digit run immediately
before a 4-digit year — yet both are absent from the cleaned table:
`pd.to_datetime(errors='coerce')` turns "2020-13" (no such month) and
"1000-01" (outside the `datetime64[ns]` timestamp range) into NaT. -/
theorem c1_counterexample :
    (rawBadMonth.numCases = some 5 ∧
      extractGov rawBadMonth.refArea = some "Beirut" ∧
      findYear4 rawBadMonth.refPeriod.data = some "2020" ∧
      findMonth2 rawBadMonth.refPeriod.data = some "13" ∧
      load_data [rawBadMonth] = []) ∧
    (rawOldYear.numCases = some 5 ∧
      extractGov rawOldYear.refArea = some "Beirut" ∧
      findYear4 rawOldYear.refPeriod.data = some "1000" ∧
      findMonth2 rawOldYear.refPeriod.data = some "01" ∧
      load_data [rawOldYear] = []) :=
  ⟨⟨rfl, by decide, by decide, by decide, by decide⟩,
    ⟨rfl, by decide, by decide, by decide, by decide⟩⟩

/-- C1 (amended): the cleaned table has exactly one row per raw record whose
derivations all succeed (`load_data` is the row-wise `filterMap` of the
cleaner), and a raw record yields a clean row iff its case count is
non-null, its `refArea` matches the resource pattern (underscores of the
trailing segment replaced by spaces inside `extractGov`), its `refPeriod`
yields a first 4-digit run and a 2-digit run before a 4-digit year, and —
the amendment — those digits denote a real calendar month (month 01–12)
whose first day is a representable `datetime64[ns]` timestamp (between
1677-10 and 2262-04); all other records are absent. -/
theorem c1_load_data (raws : List RawRecord) :
    load_data raws = raws.filterMap cleanRow ∧
    ∀ (r : RawRecord) (c : CleanRecord),
      cleanRow r = some c ↔
        ∃ n g ys ms y m, r.numCases = some n ∧ extractGov r.refArea = some g ∧
          findYear4 r.refPeriod.data = some ys ∧ findMonth2 r.refPeriod.data = some ms ∧
          parseNat ys.data = some y ∧ parseNat ms.data = some m ∧
          1 ≤ m ∧ m ≤ 12 ∧ inTimestampBounds y m ∧ c = ⟨⟨y, m, 1⟩, ys, ms, g, n⟩ :=
  ⟨load_data_eq_filterMap raws, fun r c => cleanRow_some_iff r c⟩

/-- C1 witness: the January Beirut record satisfies every derivation
condition and is cleaned to exactly the expected row. -/
theorem c1_load_data_witness :
    cleanRow rawBeirutJan
      = some ⟨⟨2020, 1, 1⟩, "2020", "01", "Beirut", (10 : ℚ)⟩ :=
  ((c1_load_data [rawBeirutJan]).2 rawBeirutJan _).mpr
    ⟨10, "Beirut", "2020", "01", 2020, 1, rfl, by decide, by decide, by decide,
      by decide, by decide, by decide, by decide, by decide, rfl⟩

/-- C5 counterexample: filtering the concrete table to the year 1999 matches
zero rows, and the forecast stage then raises (modelled as `none`) because
`LinearRegression.fit` rejects an empty sample — refuting the claim that no
downstream stage raises. -/
theorem c5_counterexample :
    filterData (load_data [rawBeirutJan]) ["1999"] ["Beirut"] = [] ∧
    forecast (filterData (load_data [rawBeirutJan]) ["1999"] ["Beirut"]) = none := by
  have h : filterData (load_data [rawBeirutJan]) ["1999"] ["Beirut"] = [] := by decide
  refine ⟨h, ?_⟩
  rw [h]
  rfl

/-- C5 (amended): a Filter Selection matching zero rows yields an empty
result without error, the Total Cases KPI reports 0, every chart series is
empty (by-date and by-region views empty, all twelve seasonality entries
missing), and the aggregation stages raise no exception — but the forecast
fitting step does raise (modelled `none`) on the empty series. -/
theorem c5_empty_filter (rows : List CleanRecord) (ys gs : List String)
    (h : ∀ r ∈ rows, ¬(r.year ∈ ys ∧ r.governorate ∈ gs)) :
    filterData rows ys gs = [] ∧
    kpiTotalCases (filterData rows ys gs) = 0 ∧
    trend (filterData rows ys gs) = [] ∧
    gov_data (filterData rows ys gs) = [] ∧
    monthly_avg (filterData rows ys gs) = month_order.map (fun mn => (mn, none)) ∧
    forecast (filterData rows ys gs) = none := by
  have hfe : filterData rows ys gs = [] := by
    unfold filterData
    refine List.filter_eq_nil_iff.mpr ?_
    intro a ha
    simpa using h a ha
  rw [hfe]
  refine ⟨rfl, ?_, rfl, rfl, rfl, rfl⟩
  unfold kpiTotalCases
  norm_num

/-- C5 witness: the amended statement instantiated at the concrete table
with a year selection matching nothing. -/
theorem c5_empty_filter_witness :
    (∀ r ∈ load_data [rawBeirutJan],
      ¬(r.year ∈ ["1999"] ∧ r.governorate ∈ ["Beirut"])) ∧
    (filterData (load_data [rawBeirutJan]) ["1999"] ["Beirut"] = [] ∧
      kpiTotalCases (filterData (load_data [rawBeirutJan]) ["1999"] ["Beirut"]) = 0 ∧
      trend (filterData (load_data [rawBeirutJan]) ["1999"] ["Beirut"]) = [] ∧
      gov_data (filterData (load_data [rawBeirutJan]) ["1999"] ["Beirut"]) = [] ∧
      monthly_avg (filterData (load_data [rawBeirutJan]) ["1999"] ["Beirut"])
        = month_order.map (fun mn => (mn, none)) ∧
      forecast (filterData (load_data [rawBeirutJan]) ["1999"] ["Beirut"]) = none) :=
  ⟨by decide, c5_empty_filter _ _ _ (by decide)⟩

theorem regression_points_ne_nil {rows : List CleanRecord} (hne : rows ≠ []) :
    regression_points rows ≠ [] := by
  have h1 : 1 ≤ ((rows.map (fun r => r.date)).dedup).length := by
    have : (rows.map (fun r => r.date)).dedup ≠ [] := by
      intro h
      have := (List.dedup_eq_nil _).mp h
      rcases rows with _ | ⟨r, t⟩
      · exact hne rfl
      · cases this
    exact List.length_pos.mpr this
  intro h
  have h2 : (regression_points rows).length = 0 := by rw [h]; rfl
  rw [regression_points_length, trend_length] at h2
  omega

theorem monthly_cases_dates_ne_nil {rows : List CleanRecord} (hne : rows ≠ []) :
    (monthly_cases rows).map (fun t => t.1) ≠ [] := by
  intro h
  have h2 : ((monthly_cases rows).map (fun t => t.1)).length = 0 := by rw [h]; rfl
  rw [List.length_map, monthly_cases_length, trend_length] at h2
  have h3 := regression_points_ne_nil hne
  have h4 : (regression_points rows).length ≠ 0 :=
    fun hz => h3 (List.length_eq_zero.mp hz)
  rw [regression_points_length, trend_length] at h4
  omega

/-- C6 counterexample: a filtered dataset with exactly one distinct date
does NOT make the fitting step raise — the forecast still returns a value
(sklearn's `lstsq` succeeds on a single sample), refuting "fewer than 2
distinct dates raises". -/
theorem c6_counterexample :
    ((load_data [rawBeirutJan]).map (fun r => r.date)).dedup.length = 1 ∧
    forecast (load_data [rawBeirutJan]) ≠ none := by
  refine ⟨by decide, ?_⟩
  have hne : load_data [rawBeirutJan] ≠ [] := by decide
  obtain ⟨a, b, hfit⟩ := fitLinReg_isSome (regression_points_ne_nil hne)
  obtain ⟨last, hmax, _, _⟩ := maxDate_spec (monthly_cases_dates_ne_nil hne)
  rw [forecast_eq hfit hmax]
  simp

/-- C6 (amended): with fewer than 2 distinct dates the fitting step raises
exactly on the empty dataset (zero distinct dates); with one distinct date
it is unguarded but does not raise — `fit` returns the degenerate
minimum-norm solution with slope 0, and the forecast still emits six
points. -/
theorem c6_insufficient_history (rows : List CleanRecord)
    (h : ((rows.map (fun r => r.date)).dedup).length < 2) :
    (rows = [] → forecast rows = none) ∧
    (rows ≠ [] → ∃ yv l, fitLinReg (regression_points rows) = some (0, yv) ∧
      forecast rows = some l ∧ l.length = 6) := by
  constructor
  · rintro rfl
    rfl
  · intro hne
    have hlen : (regression_points rows).length = ((rows.map (fun r => r.date)).dedup).length := by
      rw [regression_points_length, trend_length]
    have hpos : (regression_points rows).length ≠ 0 :=
      fun hz => regression_points_ne_nil hne (List.length_eq_zero.mp hz)
    have hone : (regression_points rows).length = 1 := by omega
    obtain ⟨p, hp⟩ := List.length_eq_one.mp hone
    have hd : nQ (regression_points rows) * sXX (regression_points rows)
        - sX (regression_points rows) ^ 2 = 0 := by
      rw [hp]
      unfold nQ sXX sX
      simp only [List.length_cons, List.length_nil, List.map_cons, List.map_nil,
        List.sum_cons, List.sum_nil]
      push_cast
      ring
    have hfit : fitLinReg (regression_points rows)
        = some (0, sY (regression_points rows) / nQ (regression_points rows)) := by
      rw [hp] at hd ⊢
      rw [fitLinReg_of_denom_eq hd, ← hp]
    obtain ⟨last, hmax, _, _⟩ := maxDate_spec (monthly_cases_dates_ne_nil hne)
    exact ⟨_, _, hfit, forecast_eq hfit hmax, by rw [List.length_map]; rfl⟩

/-- C6 witness: the amended statement instantiated at the concrete
one-record table (one distinct date). -/
theorem c6_insufficient_history_witness :
    ((load_data [rawBeirutJan]).map (fun r => r.date)).dedup.length < 2 ∧
    (load_data [rawBeirutJan] ≠ [] →
      ∃ yv l, fitLinReg (regression_points (load_data [rawBeirutJan])) = some (0, yv) ∧
        forecast (load_data [rawBeirutJan]) = some l ∧ l.length = 6) :=
  ⟨by decide, (c6_insufficient_history _ (by decide)).2⟩

/-- C8: the regression series is the by-date total view (same grouping — the
two agree on the (Date, total) pairs), with each date additionally mapped to
its `toordinal` value, and those ordinals are strictly increasing along the
series. -/
theorem c8_regression_series (rows : List CleanRecord)
    (hval : ∀ r ∈ rows, r.date.Valid) :
    (monthly_cases rows).map (fun t => (t.1, t.2.1)) = trend rows ∧
    (∀ t ∈ monthly_cases rows, t.2.2 = toordinal t.1) ∧
    (monthly_cases rows).Pairwise (fun s t => s.2.2 < t.2.2) := by
  refine ⟨?_, ?_, ?_⟩
  · rw [monthly_cases_eq, List.map_map]
    exact List.map_id _
  · intro t ht
    rw [monthly_cases_eq] at ht
    rcases List.mem_map.mp ht with ⟨p, _, hpe⟩
    rw [← hpe]
  · rw [monthly_cases_eq]
    refine List.pairwise_map.mpr ?_
    refine List.Pairwise.imp_of_mem ?_ (trend_pairwise_dateLt rows)
    intro p q hp hq h
    have hvp : p.1.Valid := mem_trend_fst_valid hval p hp
    have hvq : q.1.Valid := mem_trend_fst_valid hval q hq
    exact toordinal_lt hvp hvq h

/-- C8 witness: the concrete Beirut table has valid dates, and its
regression series agrees with the by-date view with increasing ordinals. -/
theorem c8_regression_series_witness :
    (∀ r ∈ beirutRows, r.date.Valid) ∧
    ((monthly_cases beirutRows).map (fun t => (t.1, t.2.1)) = trend beirutRows ∧
      (∀ t ∈ monthly_cases beirutRows, t.2.2 = toordinal t.1) ∧
      (monthly_cases beirutRows).Pairwise (fun s t => s.2.2 < t.2.2)) :=
  ⟨by decide, c8_regression_series beirutRows (by decide)⟩

/-- C10: every date of the cleaned table is the first day of its calendar
month, and every forecast date — obtained by whole-month offsets from the
maximum observed date — is also the first day of a calendar month. -/
theorem c10_first_of_month (raws : List RawRecord) (ys gs : List String)
    (l : List (Date × ℚ))
    (hfc : forecast (filterData (load_data raws) ys gs) = some l) :
    (∀ r ∈ load_data raws, r.date.day = 1) ∧ ∀ p ∈ l, p.1.day = 1 := by
  have hval : ∀ r ∈ filterData (load_data raws) ys gs, r.date.Valid :=
    fun r hr => load_data_valid raws r (filterData_subset r hr)
  constructor
  · intro r hr
    exact (load_data_valid raws r hr).2.2.2
  · intro p hp
    rcases hfit : fitLinReg (regression_points (filterData (load_data raws) ys gs))
      with _ | ab
    · rw [forecast_none hfit] at hfc
      cases hfc
    · obtain ⟨a, b⟩ := ab
      rcases hmax : maxDate ((monthly_cases (filterData (load_data raws) ys gs)).map
          (fun t => t.1)) with _ | last
      · unfold forecast at hfc
        rw [hfit, hmax] at hfc
        dsimp only at hfc
        cases hfc
      · have hfc2 := forecast_eq hfit hmax
        rw [hfc2] at hfc
        have hl := Option.some.inj hfc
        rw [← hl] at hp
        rcases List.mem_map.mp hp with ⟨dd, hdd, hpe⟩
        unfold future_dates at hdd
        rcases List.mem_map.mp hdd with ⟨i, _, hie⟩
        have hlastv : last.Valid := maxDate_trend_valid hval hmax
        have hday : (addMonths last (i + 1)).day = 1 := (addMonths_valid hlastv (i + 1)).2.2.2
        have hp1 : p.1 = addMonths last (i + 1) := by rw [← hpe, ← hie]
        rw [hp1]
        exact hday

/-- C10 witness: a concrete filtered table whose forecast exists; all its
cleaned and forecast dates fall on day 1. -/
theorem c10_first_of_month_witness :
    ∃ l, forecast (filterData (load_data [rawBeirutJan]) ["2020"] ["Beirut"]) = some l ∧
      (∀ r ∈ load_data [rawBeirutJan], r.date.day = 1) ∧ ∀ p ∈ l, p.1.day = 1 := by
  have hne : filterData (load_data [rawBeirutJan]) ["2020"] ["Beirut"] ≠ [] := by decide
  obtain ⟨a, b, hfit⟩ := fitLinReg_isSome (regression_points_ne_nil hne)
  obtain ⟨last, hmax, _, _⟩ := maxDate_spec (monthly_cases_dates_ne_nil hne)
  have hfc := forecast_eq hfit hmax
  exact ⟨_, hfc, c10_first_of_month [rawBeirutJan] ["2020"] ["Beirut"] _ hfc⟩

/-- C2: on a filtered dataset with at least two distinct dates the fit
succeeds and satisfies the least-squares normal equations (indeed minimises
the sum of squared errors); the forecast is exactly the six dates starting
one calendar month after the maximum observed date, strictly increasing and
spaced one calendar month apart, each paired with the unclamped value of the
fitted line at that date's ordinal. -/
theorem c2_forecast (rows : List CleanRecord)
    (hval : ∀ r ∈ rows, r.date.Valid)
    (h2 : 2 ≤ ((rows.map (fun r => r.date)).dedup).length) :
    ∃ a b last,
      fitLinReg (regression_points rows) = some (a, b) ∧
      maxDate ((monthly_cases rows).map (fun t => t.1)) = some last ∧
      (∀ t ∈ monthly_cases rows, dateLe t.1 last) ∧
      forecast rows
        = some ((future_dates last).map (fun dd => (dd, a * (toordinal dd : ℚ) + b))) ∧
      (future_dates last).length = 6 ∧
      (future_dates last).head? = some (addMonths last 1) ∧
      List.Chain' (fun d d' => dateLt d d' ∧ d' = addMonths d 1) (future_dates last) ∧
      a * sXX (regression_points rows) + b * sX (regression_points rows)
        = sXY (regression_points rows) ∧
      a * sX (regression_points rows) + b * nQ (regression_points rows)
        = sY (regression_points rows) ∧
      (∀ a' b', sse (regression_points rows) a b ≤ sse (regression_points rows) a' b') := by
  have hlen : (regression_points rows).length
      = ((rows.map (fun r => r.date)).dedup).length := by
    rw [regression_points_length, trend_length]
  have hpts2 : 2 ≤ (regression_points rows).length := by omega
  have hne : regression_points rows ≠ [] := by
    intro h
    rw [h] at hpts2
    simp at hpts2
  have hpw := regression_points_pairwise hval
  have hdpos := denom_pos_of_two hpts2 hpw
  have hdne : nQ (regression_points rows) * sXX (regression_points rows)
      - sX (regression_points rows) ^ 2 ≠ 0 := ne_of_gt hdpos
  obtain ⟨a, b, hfit⟩ := fitLinReg_isSome hne
  have hnes := fit_normal_equations hdne hfit
  have hrowsne : rows ≠ [] := by
    intro h
    subst h
    have hz : ((([] : List CleanRecord).map (fun r => r.date)).dedup).length = 0 := rfl
    omega
  obtain ⟨last, hmax, hmem, hall⟩ := maxDate_spec (monthly_cases_dates_ne_nil hrowsne)
  have hlastv : last.Valid := maxDate_trend_valid hval hmax
  refine ⟨a, b, last, hfit, hmax, ?_, forecast_eq hfit hmax, rfl, rfl, ?_,
    hnes.1, hnes.2, sse_min hnes.1 hnes.2⟩
  · intro t ht
    exact hall t.1 (List.mem_map_of_mem _ ht)
  · have hfd : future_dates last = [addMonths last 1, addMonths last 2, addMonths last 3,
        addMonths last 4, addMonths last 5, addMonths last 6] := rfl
    rw [hfd]
    refine List.chain'_cons.mpr
      ⟨⟨addMonths_dateLt hlastv (by omega), addMonths_succ hlastv 1⟩, ?_⟩
    refine List.chain'_cons.mpr
      ⟨⟨addMonths_dateLt hlastv (by omega), addMonths_succ hlastv 2⟩, ?_⟩
    refine List.chain'_cons.mpr
      ⟨⟨addMonths_dateLt hlastv (by omega), addMonths_succ hlastv 3⟩, ?_⟩
    refine List.chain'_cons.mpr
      ⟨⟨addMonths_dateLt hlastv (by omega), addMonths_succ hlastv 4⟩, ?_⟩
    refine List.chain'_cons.mpr
      ⟨⟨addMonths_dateLt hlastv (by omega), addMonths_succ hlastv 5⟩, ?_⟩
    exact List.chain'_singleton _

/-- C2 witness: the two-date concrete Beirut table satisfies both
hypotheses, and the forecast conclusion holds for it. -/
theorem c2_forecast_witness :
    (∀ r ∈ beirutRows, r.date.Valid) ∧
    2 ≤ ((beirutRows.map (fun r => r.date)).dedup).length ∧
    (∃ a b last,
      fitLinReg (regression_points beirutRows) = some (a, b) ∧
      maxDate ((monthly_cases beirutRows).map (fun t => t.1)) = some last ∧
      (∀ t ∈ monthly_cases beirutRows, dateLe t.1 last) ∧
      forecast beirutRows
        = some ((future_dates last).map (fun dd => (dd, a * (toordinal dd : ℚ) + b))) ∧
      (future_dates last).length = 6 ∧
      (future_dates last).head? = some (addMonths last 1) ∧
      List.Chain' (fun d d' => dateLt d d' ∧ d' = addMonths d 1) (future_dates last) ∧
      a * sXX (regression_points beirutRows) + b * sX (regression_points beirutRows)
        = sXY (regression_points beirutRows) ∧
      a * sX (regression_points beirutRows) + b * nQ (regression_points beirutRows)
        = sY (regression_points beirutRows) ∧
      (∀ a' b', sse (regression_points beirutRows) a b
        ≤ sse (regression_points beirutRows) a' b')) :=
  ⟨by decide, by decide, c2_forecast beirutRows (by decide) (by decide)⟩

theorem beirut_trend :
    trend beirutRows = [(⟨2020, 1, 1⟩, 10), (⟨2020, 2, 1⟩, 20)] := by
  have hk : groupKeys dateLe (fun r : CleanRecord => r.date) beirutRows
      = [⟨2020, 1, 1⟩, ⟨2020, 2, 1⟩] := by decide
  have hf1 : beirutRows.filter (fun r => decide (r.date = (⟨2020, 1, 1⟩ : Date)))
      = [⟨⟨2020, 1, 1⟩, "2020", "01", "Beirut", (10 : ℚ)⟩] := by decide
  have hf2 : beirutRows.filter (fun r => decide (r.date = (⟨2020, 2, 1⟩ : Date)))
      = [⟨⟨2020, 2, 1⟩, "2020", "02", "Beirut", (20 : ℚ)⟩] := by decide
  unfold trend groupbySum
  rw [hk, List.map_cons, List.map_cons, List.map_nil, hf1, hf2]
  norm_num

theorem beirut_points :
    regression_points beirutRows = [((737425 : ℚ), 10), ((737456 : ℚ), 20)] := by
  rw [regression_points_eq, beirut_trend]
  have h1 : toordinal ⟨2020, 1, 1⟩ = 737425 := by decide
  have h2 : toordinal ⟨2020, 2, 1⟩ = 737456 := by decide
  simp [h1, h2]

theorem beirut_fit :
    fitLinReg (regression_points beirutRows) = some (10 / 31, -7373940 / 31) := by
  rw [beirut_points]
  have hd : nQ [((737425 : ℚ), 10), ((737456 : ℚ), 20)]
      * sXX [((737425 : ℚ), 10), ((737456 : ℚ), 20)]
      - sX [((737425 : ℚ), 10), ((737456 : ℚ), 20)] ^ 2 ≠ 0 := by
    norm_num [nQ, sXX, sX]
  rw [fitLinReg_of_denom_ne hd]
  norm_num [nQ, sXX, sX, sXY, sY]

theorem beirut_forecast :
    forecast beirutRows
      = some [(⟨2020, 3, 1⟩, 910 / 31), (⟨2020, 4, 1⟩, 1220 / 31),
          (⟨2020, 5, 1⟩, 1520 / 31), (⟨2020, 6, 1⟩, 1830 / 31),
          (⟨2020, 7, 1⟩, 2130 / 31), (⟨2020, 8, 1⟩, 2440 / 31)] := by
  have hmax : maxDate ((monthly_cases beirutRows).map (fun t => t.1))
      = some ⟨2020, 2, 1⟩ := by decide
  rw [forecast_eq beirut_fit hmax]
  have hfd : future_dates ⟨2020, 2, 1⟩
      = [⟨2020, 3, 1⟩, ⟨2020, 4, 1⟩, ⟨2020, 5, 1⟩,
         ⟨2020, 6, 1⟩, ⟨2020, 7, 1⟩, ⟨2020, 8, 1⟩] := by decide
  rw [hfd]
  have h3 : toordinal ⟨2020, 3, 1⟩ = 737485 := by decide
  have h4 : toordinal ⟨2020, 4, 1⟩ = 737516 := by decide
  have h5 : toordinal ⟨2020, 5, 1⟩ = 737546 := by decide
  have h6 : toordinal ⟨2020, 6, 1⟩ = 737577 := by decide
  have h7 : toordinal ⟨2020, 7, 1⟩ = 737607 := by decide
  have h8 : toordinal ⟨2020, 8, 1⟩ = 737638 := by decide
  simp only [List.map_cons, List.map_nil, h3, h4, h5, h6, h7, h8]
  norm_num

/-- C4 counterexample: on the two concrete Beirut records the code's linear
fit (over day ordinals) evaluated at 2020-03-01 yields 910/31 ≈ 29.35, not
the 30 the claim states — January has 31 days but February 2020 has 29, so
the ordinal-coordinate extrapolation is not the arithmetic continuation. -/
theorem c4_counterexample :
    fitLinReg (regression_points beirutRows) = some (10 / 31, -7373940 / 31) ∧
    (10 / 31 : ℚ) * (toordinal ⟨2020, 3, 1⟩ : ℚ) + (-7373940 / 31) ≠ 30 := by
  refine ⟨beirut_fit, ?_⟩
  have h3 : toordinal ⟨2020, 3, 1⟩ = 737485 := by decide
  rw [h3]
  norm_num

/-- C4 (amended): for the two concrete Beirut records the cleaned table has
exactly the two expected rows, the by-date total view is
{2020-01 ↦ 10, 2020-02 ↦ 20}, and the fitted line extrapolated to
2020-03-01 predicts 910/31 (≈ 29.35) — not 30 — because the regression
coordinate is the day ordinal and the two month steps have 31 and 29 days. -/
theorem c4_concrete :
    load_data [rawBeirutJan, rawBeirutFeb]
      = [⟨⟨2020, 1, 1⟩, "2020", "01", "Beirut", 10⟩,
         ⟨⟨2020, 2, 1⟩, "2020", "02", "Beirut", 20⟩] ∧
    trend beirutRows = [(⟨2020, 1, 1⟩, 10), (⟨2020, 2, 1⟩, 20)] ∧
    forecast beirutRows
      = some [(⟨2020, 3, 1⟩, 910 / 31), (⟨2020, 4, 1⟩, 1220 / 31),
          (⟨2020, 5, 1⟩, 1520 / 31), (⟨2020, 6, 1⟩, 1830 / 31),
          (⟨2020, 7, 1⟩, 2130 / 31), (⟨2020, 8, 1⟩, 2440 / 31)] ∧
    (910 / 31 : ℚ) ≠ 30 :=
  ⟨by decide, beirut_trend, beirut_forecast, by norm_num⟩

end Dashboard
